import Mathlib

/-!
Verification development for the pocket-prompt library engine.

The Go source is shallowly embedded: pure helpers become Lean functions on
`String` (represented through its underlying `List Char` so that every
definition is structurally recursive and kernel-computable), the service layer
becomes explicit state passing over a `Service` record, and the git sync
coordinator becomes a deterministic function of an oracle assigning an outcome
to every subprocess invocation (indexed by invocation count, so repeated
commands may differ).
-/

namespace PocketPrompt

/-! ## Go string primitives

Re-implementations of the `strings`/`strconv` standard-library calls the
sources use, written by structural recursion on `String.data` so that concrete
evaluation goes through `decide`/`rfl`. -/

/-- Whitespace class used by Go's `strings.TrimSpace` (ASCII cases; the Go
function also trims a few exotic Unicode spaces which never occur in the
repository's inputs). -/
def isGoSpace (c : Char) : Bool :=
  c = ' ' || c = '\t' || c = '\n' || c = '\x0b' || c = '\x0c' || c = '\r'

/-- Trim `isGoSpace` characters from both ends of a character list. -/
def trimChars (cs : List Char) : List Char :=
  ((cs.dropWhile isGoSpace).reverse.dropWhile isGoSpace).reverse

/-- Go `strings.TrimSpace`. -/
def goTrimSpace (s : String) : String := ⟨trimChars s.data⟩

/-- Go `strings.ToUpper`, ASCII case mapping (`unicode.ToUpper` agrees with
this on every character whose image is one of the ASCII letters compared
against in the sources). -/
def goToUpper (s : String) : String := ⟨s.data.map Char.toUpper⟩

/-- Does `needle` occur as a contiguous sublist of `l`?  Go
`strings.Contains` on the character level. -/
def containsSubAux (needle : List Char) : List Char → Bool
  | [] => needle.isEmpty
  | c :: cs => needle.isPrefixOf (c :: cs) || containsSubAux needle cs

/-- Go `strings.Contains s sub`. -/
def goContains (s sub : String) : Bool := containsSubAux sub.data s.data

/-- Go `strings.HasPrefix`. -/
def goHasPre (s pre : String) : Bool := pre.data.isPrefixOf s.data

/-- Go `strings.HasSuffix`. -/
def goHasSuf (s suf : String) : Bool := suf.data.isSuffixOf s.data

/-- Helper for Go `strings.Split`: fuel-driven scan.  With `fuel ≥ l.length`
the fuel is never exhausted (each step strictly shortens `l` because the
separator is nonempty at every use site). -/
def splitSepAux (sep : List Char) : Nat → List Char → List Char → List (List Char)
  | _, [], acc => [acc.reverse]
  | 0, l, acc => [acc.reverse ++ l]
  | fuel + 1, c :: cs, acc =>
    if sep.isPrefixOf (c :: cs) then
      acc.reverse :: splitSepAux sep fuel (List.drop sep.length (c :: cs)) []
    else
      splitSepAux sep fuel cs (c :: acc)

/-- Go `strings.Split s sep` for a nonempty separator. -/
def goSplit (s sep : String) : List String :=
  (splitSepAux sep.data s.data.length s.data []).map fun cs => ⟨cs⟩

/-- Go `strings.Join parts " "`. -/
def joinArgs : List String → String
  | [] => ""
  | [a] => a
  | a :: rest => a ++ " " ++ joinArgs rest

/-- Go `strconv.Atoi`: optional sign, decimal digits, 64-bit range check. -/
def atoi (s : String) : Option Int :=
  let (sign, digits) :=
    if s.data.head? = some '-' then ((-1 : Int), s.data.tail)
    else if s.data.head? = some '+' then ((1 : Int), s.data.tail)
    else ((1 : Int), s.data)
  if digits.isEmpty then none
  else if digits.all Char.isDigit then
    let n : Nat := digits.foldl (fun acc c => acc * 10 + (c.toNat - 48)) 0
    let v : Int := sign * (n : Int)
    if -(2 ^ 63) ≤ v ∧ v ≤ 2 ^ 63 - 1 then some v else none
  else none

/-- Go's two's-complement `int` (64-bit) wrap-around: reduce into
`[-2^63, 2^63)`.  Applied to every arithmetic result the source computes on
`int`, so `math.MaxInt64 + 1` wraps to `math.MinInt64` as in Go. -/
def wrap64 (n : Int) : Int := (n + 2 ^ 63) % 2 ^ 64 - 2 ^ 63

/-! ## Version bumping (`service.incrementVersion`)

```go
func (s *Service) incrementVersion(currentVersion string) (string, error) {
    if currentVersion == "" { return "1.0.0", nil }
    parts := strings.Split(currentVersion, ".")
    if len(parts) != 3 {
        if version, err := strconv.Atoi(currentVersion); err == nil {
            return strconv.Itoa(version + 1), nil
        }
        return currentVersion + ".1", nil
    }
    patch, err := strconv.Atoi(parts[2])
    if err != nil { return currentVersion + ".1", nil }
    return fmt.Sprintf("%s.%s.%d", parts[0], parts[1], patch+1), nil
}
```

The Go function's error result is always `nil`, so the embedding returns a
plain `String`.  The `+ 1` on Go's `int` wraps at the int64 boundary
(`version + 1`, `patch + 1` are two's-complement additions), hence the
`wrap64`. -/
def incrementVersion (currentVersion : String) : String :=
  if currentVersion = "" then "1.0.0"
  else
    let parts := goSplit currentVersion "."
    if parts.length ≠ 3 then
      match atoi currentVersion with
      | some version => toString (wrap64 (version + 1))
      | none => currentVersion ++ ".1"
    else
      match atoi parts[2]! with
      | some patch =>
        parts[0]! ++ "." ++ parts[1]! ++ "." ++ toString (wrap64 (patch + 1))
      | none => currentVersion ++ ".1"

/-! ## Data model (`models.Prompt`)

Only the fields the service layer reads are modelled; timestamps are abstract
ticks.  `content` is the post-frontmatter body, `filePath` the path relative
to the library root. -/

structure Prompt where
  id : String
  version : String
  name : String
  summary : String
  tags : List String
  content : String
  filePath : String
  createdAt : Nat
  updatedAt : Nat
deriving DecidableEq, Repr

/-! ## Artifact store (`storage.Storage`)

The store is modelled as the `prompts/` directory: a list of parsed prompt
files, keyed by `filePath` (Go's `SavePrompt` writes at `rootPath ++
prompt.FilePath`, and `LoadPrompt` restores `FilePath` from the file's
relative path, so the key always coincides with the stored value's
`filePath`).  Serialization round-trips (§4.1 of the spec, and the body is
already trimmed on every prompt that came from disk), so a file is identified
with the prompt parsed from it.  `storeList` is the fresh enumeration
performed by `Storage.ListPrompts`. -/

abbrev Store := List Prompt

/-- `Storage.SavePrompt`: overwrite the file at `p.filePath` if present,
otherwise create it. -/
def storeSave (st : Store) (p : Prompt) : Store :=
  if (st : List Prompt).any (fun q => q.filePath == p.filePath) then
    (st : List Prompt).map fun q => if q.filePath == p.filePath then p else q
  else (st : List Prompt) ++ [p]

/-- `Storage.DeletePrompt`: fails (returns `none`) when no file exists at the
recorded path. -/
def storeDelete (st : Store) (p : Prompt) : Option Store :=
  if (st : List Prompt).any (fun q => q.filePath == p.filePath) then
    some ((st : List Prompt).filter fun q => ! (q.filePath == p.filePath))
  else none

/-- `Storage.ListPrompts`: enumerate every prompt file under `prompts/`. -/
def storeList (st : Store) : List Prompt := st

/-- The file stored at a given path, if any. -/
def storeLookup (st : Store) (path : String) : Option Prompt :=
  (st : List Prompt).find? fun q => q.filePath == path

/-! ## Library service (`service.Service`)

`store` is the on-disk state, `prompts` the in-memory cache.  Go methods that
mutate the receiver are threaded explicitly; operations that can fail return
an `Option` alongside the final state.  Storage I/O errors are not modelled
(the store is total), which only removes failure paths that abort an
operation early. -/

structure Service where
  store : Store
  prompts : List Prompt
deriving DecidableEq, Repr

/-- `Service.isArchived`: scan the tag list for the literal `"archive"`. -/
def isArchived (p : Prompt) : Bool :=
  p.tags.any fun tag => tag == "archive"

/-- `Service.loadPrompts`: refill the cache from a fresh enumeration. -/
def Service.loadPrompts (s : Service) : Service :=
  { s with prompts := storeList s.store }

/-- The lazy-refill step both listing operations start with
(`if len(s.prompts) == 0 { s.loadPrompts() }`). -/
def Service.ensureLoaded (s : Service) : Service :=
  if s.prompts.length = 0 then s.loadPrompts else s

/-- `Service.ListPrompts`: all non-archived prompts (returns the state after
the possible lazy refill alongside the result). -/
def Service.listPrompts (s : Service) : Service × List Prompt :=
  let s' := s.ensureLoaded
  (s', s'.prompts.filter fun p => ! isArchived p)

/-- `Service.ListArchivedPrompts`: only archived prompts. -/
def Service.listArchivedPrompts (s : Service) : Service × List Prompt :=
  let s' := s.ensureLoaded
  (s', s'.prompts.filter fun p => isArchived p)

/-- `Service.SearchPrompts`.  The external dependency `fuzzy.Find` (package
`github.com/sahilm/fuzzy`) is abstracted as the parameter `fz`, which maps a
query and the per-prompt haystack strings to the matching indices in rank
order; the empty-query branch returns before `fz` is consulted. -/
def Service.searchPrompts (fz : String → List String → List Nat)
    (s : Service) (query : String) : Service × List Prompt :=
  let (s', prompts) := s.listPrompts
  if query = "" then (s', prompts)
  else
    let searchStrings := prompts.map fun p =>
      p.name ++ " " ++ p.summary ++ " " ++ p.id ++ " " ++ joinArgs p.tags
    let found := fz query searchStrings
    (s', (found.filterMap fun i => prompts[i]?))

/-- `Service.GetPrompt`: first non-archived prompt with the given id;
`none` models the `"prompt not found"` error. -/
def Service.getPrompt (s : Service) (id : String) : Service × Option Prompt :=
  let (s', prompts) := s.listPrompts
  (s', prompts.find? fun p => p.id == id)

/-- `Service.CreatePrompt` (`now` is the stamped wall-clock tick). -/
def Service.createPrompt (s : Service) (now : Nat) (prompt : Prompt) : Service :=
  let prompt := { prompt with createdAt := now, updatedAt := now }
  let prompt :=
    if prompt.filePath = "" then
      { prompt with filePath := "prompts/" ++ prompt.id ++ ".md" }
    else prompt
  let s := { s with store := storeSave s.store prompt }
  s.loadPrompts

/-- The archived copy built by `Service.archivePromptByTag`: append the
`archive` tag when absent and move the path to `prompts/<id>-v<version>.md`. -/
def archiveCopy (p : Prompt) : Prompt :=
  let tags := if p.tags.any (fun tag => tag == "archive") then p.tags
              else p.tags ++ ["archive"]
  { p with tags := tags,
           filePath := "prompts/" ++ p.id ++ "-v" ++ p.version ++ ".md" }

/-- `Service.archivePromptByTag`: save the archived copy. -/
def Service.archivePromptByTag (s : Service) (p : Prompt) : Service :=
  { s with store := storeSave s.store (archiveCopy p) }

/-- `Service.UpdatePrompt`: archive the stored copy, bump its version onto the
incoming prompt, preserve creation time and (when the incoming path is empty)
the original path, save, reload.  `none` models the
`"cannot update non-existent prompt"` error. -/
def Service.updatePrompt (s : Service) (now : Nat) (prompt : Prompt) :
    Service × Option Unit :=
  match s.getPrompt prompt.id with
  | (s', none) => (s', none)
  | (s', some existing) =>
    let s2 := s'.archivePromptByTag existing
    let newVersion := incrementVersion existing.version
    let prompt := { prompt with version := newVersion,
                                createdAt := existing.createdAt,
                                updatedAt := now }
    let prompt :=
      if prompt.filePath = "" then { prompt with filePath := existing.filePath }
      else prompt
    let s3 := { s2 with store := storeSave s2.store prompt }
    (s3.loadPrompts, some ())

/-- `Service.DeletePrompt`: look up the live prompt, delete its file, reload.
`none` models both failure paths (missing prompt, missing file). -/
def Service.deletePrompt (s : Service) (id : String) : Service × Option Unit :=
  match s.getPrompt id with
  | (s', none) => (s', none)
  | (s', some prompt) =>
    match storeDelete s'.store prompt with
    | none => (s', none)
    | some st => (({ s' with store := st }).loadPrompts, some ())

/-! ## Boolean expression model

The variant tree (`models.BooleanExpression`) lives in a models file that is
not among the provided sources; it is modelled from the spec (§3: "algebraic
tree over tag predicates. Variants: `Tag(name)`, `And(children)`,
`Or(children)`, `Not(child)`"), matching the constructor calls
`NewTagExpression` / `NewAndExpression` / `NewOrExpression` /
`NewNotExpression` made by the parser below. -/

inductive BooleanExpression where
  | tag (name : String)
  | and (children : List BooleanExpression)
  | or (children : List BooleanExpression)
  | not (child : BooleanExpression)

/-- Error payload for the parser's `error` result.  The Go function returns a
plain `error`; no call site ever constructs one (errors could only propagate
from recursive calls), so this is only produced by the embedding's fuel guard,
which the totality theorem shows unreachable. -/
structure ParseFailure where
  message : String
deriving DecidableEq, Repr

/-- Sequential parse of the split parts with early error return (the `for`
loops in the `OR`/`AND` branches of `server.parseBooleanExpression`); each
part is trimmed before the recursive call. -/
def parseParts (f : String → Except ParseFailure BooleanExpression) :
    List String → Except ParseFailure (List BooleanExpression)
  | [] => .ok []
  | p :: ps =>
    match f (goTrimSpace p) with
    | .error e => .error e
    | .ok e =>
      match parseParts f ps with
      | .error err => .error err
      | .ok es => .ok (e :: es)

/-- `server.parseBooleanExpression` (internal/server/url_server.go), with an
explicit recursion fuel (every recursive call is on a strictly shorter string,
so the wrapper's fuel is never exhausted — proved below).

```go
expr = strings.TrimSpace(expr)
if strings.HasPrefix(strings.ToUpper(expr), "NOT ") { ... NewNotExpression ... }
if orParts := strings.Split(expr, " OR "); len(orParts) > 1 { ... NewOrExpression ... }
if andParts := strings.Split(expr, " AND "); len(andParts) > 1 { ... NewAndExpression ... }
if strings.HasPrefix(expr, "(") && strings.HasSuffix(expr, ")") {
    return s.parseBooleanExpression(expr[1 : len(expr)-1])
}
return models.NewTagExpression(expr), nil
```
(The byte slices `expr[4:]` and `expr[1:len-1]` cut at characters that the
guarding prefix/suffix checks force to be single-byte, so character-level
`drop`/`dropLast` coincide with them.) -/
def parseBEAux : Nat → String → Except ParseFailure BooleanExpression
  | 0, _ => .error ⟨"recursion fuel exhausted"⟩
  | fuel + 1, exprIn =>
    let expr := goTrimSpace exprIn
    if goHasPre (goToUpper expr) "NOT " then
      match parseBEAux fuel (goTrimSpace ⟨expr.data.drop 4⟩) with
      | .error e => .error e
      | .ok inner => .ok (.not inner)
    else
      let orParts := goSplit expr " OR "
      if orParts.length > 1 then
        match parseParts (parseBEAux fuel) orParts with
        | .error e => .error e
        | .ok es => .ok (.or es)
      else
        let andParts := goSplit expr " AND "
        if andParts.length > 1 then
          match parseParts (parseBEAux fuel) andParts with
          | .error e => .error e
          | .ok es => .ok (.and es)
        else
          if goHasPre expr "(" && goHasSuf expr ")" then
            parseBEAux fuel ⟨(expr.data.drop 1).dropLast⟩
          else .ok (.tag expr)

/-- The boolean-expression query parser of the HTTP adapter. -/
def parseBooleanExpression (expr : String) : Except ParseFailure BooleanExpression :=
  parseBEAux (expr.data.length + 1) expr

/-- Tag literals of the query grammar as the spec words them (§4.6: "tag
literals are any non-whitespace, non-paren token") — the spec-side validity
notion the claim about typed parse errors is compared against. -/
def specTagToken (s : String) : Bool :=
  ¬ s.data.isEmpty && s.data.all fun c => ¬ isGoSpace c && ¬ c = '(' && ¬ c = ')'

/-! ## Git sync coordinator (`git.GitSync`)

Subprocess execution is modelled by an oracle `GitWorld.run` giving the
outcome of the `n`-th git invocation (indexed by a global invocation counter,
so the same command line may behave differently across invocations, as in a
real repository whose state the commands mutate).  Every operation returns
the advanced counter, the list of command lines it issued in order, and its
result; `Option String` results model Go's `error` (`none` = `nil`).
`GitWorld.enabled` models `IsEnabled()` (user switch together with the
`.git`-directory probe). -/

inductive CmdResult where
  | ok (output : String)
  | fail (exitCode : Nat) (output : String)
  | timeout
deriving DecidableEq, Repr

/-- Did the subprocess exit successfully? -/
def CmdResult.isOk : CmdResult → Bool
  | .ok _ => true
  | _ => false

structure GitWorld where
  run : Nat → List String → CmdResult
  enabled : Bool

/-- One step of a git operation: advanced invocation counter, issued command
lines, and the operation's result. -/
structure GitStep (α : Type) where
  tick : Nat
  trace : List (List String)
  result : α
deriving Repr

/-- `GitSync.runGitCommandWithTimeout` (via `runGitCommand`): formats failure
and deadline-exceeded outcomes into the error strings later code substring-
matches on. -/
def runGitCommand (w : GitWorld) (t : Nat) (args : List String) :
    GitStep (Option String) :=
  match w.run t args with
  | .ok _ => ⟨t + 1, [args], none⟩
  | .fail _ out => ⟨t + 1, [args], some ("git " ++ joinArgs args ++ " failed: " ++ out)⟩
  | .timeout => ⟨t + 1, [args], some ("git " ++ joinArgs args ++ " timed out after 10s")⟩

/-- A `cmd.Output()`-style invocation: captured stdout on success, `none` on
any failure. -/
def cmdOutput (w : GitWorld) (t : Nat) (args : List String) :
    GitStep (Option String) :=
  match w.run t args with
  | .ok out => ⟨t + 1, [args], some out⟩
  | _ => ⟨t + 1, [args], none⟩

/-- The command line issued by `GitSync.getCurrentBranch`. -/
def branchCmd : List String := ["branch", "--show-current"]

/-- Branch-name decoding of `GitSync.getCurrentBranch`: `"main"` on error or
on an empty (detached-HEAD) answer. -/
def branchOf : CmdResult → String
  | .ok out => let b := goTrimSpace out; if b = "" then "main" else b
  | _ => "main"

/-- `GitSync.getCurrentBranch`. -/
def getCurrentBranch (w : GitWorld) (t : Nat) : GitStep String :=
  ⟨t + 1, [branchCmd], branchOf (w.run t branchCmd)⟩

/-- `GitSync.isBehindRemote`: compare local and remote hashes, then ask
`merge-base --is-ancestor` whether local is an ancestor of remote.  The
local-`rev-parse` failure path returns the subprocess error (its exact text
is irrelevant downstream; only success/failure is branched on). -/
def isBehindRemote (w : GitWorld) (t : Nat) : GitStep (Except String Bool) :=
  let b := getCurrentBranch w t
  let r1 := cmdOutput w b.tick ["rev-parse", "origin/" ++ b.result]
  match r1.result with
  | none => ⟨r1.tick, b.trace ++ r1.trace, .ok false⟩
  | some remoteOut =>
    let r2 := cmdOutput w r1.tick ["rev-parse", "HEAD"]
    match r2.result with
    | none => ⟨r2.tick, b.trace ++ r1.trace ++ r2.trace, .error "exit status 1"⟩
    | some localOut =>
      let remoteHash := goTrimSpace remoteOut
      let localHash := goTrimSpace localOut
      if ¬ remoteHash = localHash then
        let mbArgs := ["merge-base", "--is-ancestor", localHash, remoteHash]
        ⟨r2.tick + 1, b.trace ++ r1.trace ++ r2.trace ++ [mbArgs],
         .ok (w.run r2.tick mbArgs).isOk⟩
      else ⟨r2.tick, b.trace ++ r1.trace ++ r2.trace, .ok false⟩

/-- The fetch command line shared by `PullChanges` and `resetToRemote`. -/
def fetchCmd : List String := ["fetch", "origin"]

/-- `GitSync.resetToRemote` (nuclear option): fetch, then hard reset; the
reset is not reached when the fetch fails. -/
def resetToRemote (w : GitWorld) (t : Nat) : GitStep (Option String) :=
  let b := getCurrentBranch w t
  let f := runGitCommand w b.tick fetchCmd
  match f.result with
  | some e => ⟨f.tick, b.trace ++ f.trace, some ("failed to fetch before reset: " ++ e)⟩
  | none =>
    let r := runGitCommand w f.tick ["reset", "--hard", "origin/" ++ b.result]
    match r.result with
    | some e => ⟨r.tick, b.trace ++ f.trace ++ r.trace,
                 some ("failed to reset to remote: " ++ e)⟩
    | none => ⟨r.tick, b.trace ++ f.trace ++ r.trace, none⟩

/-- The per-file loop of `resolveConflictsAutomatically`: skip empty names,
`checkout --theirs` then `add` each conflicted file, stopping at the first
failure. -/
def resolveLoop (w : GitWorld) : Nat → List String → GitStep (Option String)
  | t, [] => ⟨t, [], none⟩
  | t, file :: rest =>
    if file = "" then resolveLoop w t rest
    else
      let co := runGitCommand w t ["checkout", "--theirs", file]
      match co.result with
      | some e => ⟨co.tick, co.trace,
                   some ("failed to resolve conflict in " ++ file ++ ": " ++ e)⟩
      | none =>
        let ad := runGitCommand w co.tick ["add", file]
        match ad.result with
        | some e => ⟨ad.tick, co.trace ++ ad.trace,
                     some ("failed to stage resolved file " ++ file ++ ": " ++ e)⟩
        | none =>
          let rl := resolveLoop w ad.tick rest
          ⟨rl.tick, co.trace ++ ad.trace ++ rl.trace, rl.result⟩

/-- `GitSync.resolveConflictsAutomatically`: list conflicted files, prefer
the remote version of each, finish the merge with a no-edit commit. -/
def resolveConflictsAutomatically (w : GitWorld) (t : Nat) : GitStep (Option String) :=
  let d := cmdOutput w t ["diff", "--name-only", "--diff-filter=U"]
  match d.result with
  | none => ⟨d.tick, d.trace, some "failed to get conflicted files"⟩
  | some out =>
    let conflictedFiles := goSplit (goTrimSpace out) "\n"
    if conflictedFiles.length = 0 ∨ conflictedFiles.head? = some "" then
      ⟨d.tick, d.trace, some "no conflicted files found"⟩
    else
      let rl := resolveLoop w d.tick conflictedFiles
      match rl.result with
      | some e => ⟨rl.tick, d.trace ++ rl.trace, some e⟩
      | none =>
        let cm := runGitCommand w rl.tick ["commit", "--no-edit"]
        match cm.result with
        | some e => ⟨cm.tick, d.trace ++ rl.trace ++ cm.trace,
                     some ("failed to complete merge: " ++ e)⟩
        | none => ⟨cm.tick, d.trace ++ rl.trace ++ cm.trace, none⟩

/-- Command line of the merge strategy (prefer local content). -/
def mergeCmd (b : String) : List String :=
  ["pull", "--strategy=recursive", "--strategy-option=ours", "origin", b]

/-- Command line of the rebase strategy. -/
def rebaseCmd (b : String) : List String := ["pull", "--rebase", "origin", b]

/-- `GitSync.handlePullConflict`: on divergent branches try merge, then
rebase, then `resetToRemote`; on conflict markers resolve automatically;
otherwise return the pull error unhandled. -/
def handlePullConflict (w : GitWorld) (t : Nat) (pullErr : String) :
    GitStep (Option String) :=
  if goContains pullErr "divergent" ||
      goContains pullErr "hint: You have divergent branches" then
    let b1 := getCurrentBranch w t
    let m := runGitCommand w b1.tick (mergeCmd b1.result)
    match m.result with
    | none => ⟨m.tick, b1.trace ++ m.trace, none⟩
    | some _ =>
      let b2 := getCurrentBranch w m.tick
      let r := runGitCommand w b2.tick (rebaseCmd b2.result)
      match r.result with
      | none => ⟨r.tick, b1.trace ++ m.trace ++ b2.trace ++ r.trace, none⟩
      | some _ =>
        let rst := resetToRemote w r.tick
        ⟨rst.tick, b1.trace ++ m.trace ++ b2.trace ++ r.trace ++ rst.trace,
         rst.result⟩
  else if goContains pullErr "conflict" || goContains pullErr "CONFLICT" then
    resolveConflictsAutomatically w t
  else
    ⟨t, [], some pullErr⟩

/-- `GitSync.PullChanges`: fetch, check whether behind, pull, and hand pull
failures to the conflict handler. -/
def pullChanges (w : GitWorld) (t : Nat) : GitStep (Option String) :=
  if ¬ w.enabled then ⟨t, [], none⟩
  else
    let f := runGitCommand w t fetchCmd
    match f.result with
    | some e => ⟨f.tick, f.trace, some ("failed to fetch from remote: " ++ e)⟩
    | none =>
      let bh := isBehindRemote w f.tick
      match bh.result with
      | .error e => ⟨bh.tick, f.trace ++ bh.trace,
                     some ("failed to check remote status: " ++ e)⟩
      | .ok false => ⟨bh.tick, f.trace ++ bh.trace, none⟩
      | .ok true =>
        let b := getCurrentBranch w bh.tick
        let p := runGitCommand w b.tick ["pull", "origin", b.result]
        match p.result with
        | none => ⟨p.tick, f.trace ++ bh.trace ++ b.trace ++ p.trace, none⟩
        | some e =>
          let hc := handlePullConflict w p.tick e
          ⟨hc.tick, f.trace ++ bh.trace ++ b.trace ++ p.trace ++ hc.trace,
           hc.result⟩

/-- The push command line for a branch. -/
def pushCmd (b : String) : List String := ["push", "origin", b]

/-- `GitSync.pushWithRetry`: push; on a rejection/non-fast-forward error pull
once and retry the push once, folding the second failure into the distinct
`push failed after pull` error. -/
def pushWithRetry (w : GitWorld) (t : Nat) : GitStep (Option String) :=
  let b1 := getCurrentBranch w t
  let p1 := runGitCommand w b1.tick (pushCmd b1.result)
  match p1.result with
  | none => ⟨p1.tick, b1.trace ++ p1.trace, none⟩
  | some err =>
    if goContains err "rejected" || goContains err "non-fast-forward" then
      let pl := pullChanges w p1.tick
      match pl.result with
      | some pullErr =>
        ⟨pl.tick, b1.trace ++ p1.trace ++ pl.trace,
         some ("push failed and pull failed: push=" ++ err ++ ", pull=" ++ pullErr)⟩
      | none =>
        let b2 := getCurrentBranch w pl.tick
        let p2 := runGitCommand w b2.tick (pushCmd b2.result)
        match p2.result with
        | none => ⟨p2.tick, b1.trace ++ p1.trace ++ pl.trace ++ b2.trace ++ p2.trace, none⟩
        | some retryErr =>
          ⟨p2.tick, b1.trace ++ p1.trace ++ pl.trace ++ b2.trace ++ p2.trace,
           some ("push failed after pull: original=" ++ err ++ ", retry=" ++ retryErr)⟩
    else ⟨p1.tick, b1.trace ++ p1.trace, some err⟩

/-! ## Auxiliary definitions used by the theorems -/

/-- Join character-list fragments with a separator (the inverse view of
`splitSepAux` used to bound the parts' lengths). -/
def joinSep (sep : List Char) : List (List Char) → List Char
  | [] => []
  | [p] => p
  | p :: ps => p ++ sep ++ joinSep sep ps

/-- Number of `git push` invocations recorded in a trace. -/
def countPush (tr : List (List String)) : Nat :=
  (tr.filter fun args => args.head? == some "push").length

/-- The error value `runGitCommand` produces for each subprocess outcome
(spelled out so that the oracle's answer can be substituted in one step). -/
def gitErr (args : List String) : CmdResult → Option String
  | .ok _ => none
  | .fail _ out => some ("git " ++ joinArgs args ++ " failed: " ++ out)
  | .timeout => some ("git " ++ joinArgs args ++ " timed out after 10s")

/-- The stdout value `cmdOutput` produces for each subprocess outcome. -/
def outRes : CmdResult → Option String
  | .ok out => some out
  | _ => none

/-- A live sample prompt used by the concrete witnesses. -/
def samplePrompt : Prompt :=
  { id := "a", version := "1.0.0", name := "A", summary := "demo", tags := ["x"],
    content := "hello", filePath := "prompts/a.md", createdAt := 0, updatedAt := 0 }

/-- A service whose cache agrees with its store, holding the sample prompt. -/
def sampleService : Service := { store := [samplePrompt], prompts := [samplePrompt] }

/-- An incoming edit of the sample prompt (empty file path, as produced by a
caller that lets the service pick the path). -/
def sampleEdit : Prompt := { samplePrompt with content := "world", filePath := "" }

/-- The sample prompt carrying the `archive` tag. -/
def archivedSample : Prompt := { samplePrompt with tags := ["x", "archive"] }

/-- A service in which every copy of identifier `"a"` is archived. -/
def archivedOnlyService : Service :=
  { store := [archivedSample], prompts := [archivedSample] }

/-- A service holding one live and one archived prompt. -/
def mixedService : Service :=
  { store := [samplePrompt, archivedSample],
    prompts := [samplePrompt, archivedSample] }

/-- A git oracle on which every subprocess fails. -/
def failWorld : GitWorld := { run := fun _ _ => .fail 1 "boom", enabled := true }

/-- The mock oracle of the push-retry scenario: the first push is rejected as
non-fast-forward, the pull cycle succeeds without needing a merge (the remote
branch does not resolve, so the repository is not behind), and the second
push succeeds or fails according to `retryOk`. -/
def mockPushWorld (retryOk : Bool) : GitWorld :=
  { run := fun t args =>
      if args.head? == some "push" then
        if t ≤ 1 then .fail 1 "! [rejected] main -> main (non-fast-forward)"
        else if retryOk then .ok "" else .fail 1 "! [rejected] main -> main (fetch first)"
      else if args == branchCmd then .ok "main"
      else if args == fetchCmd then .ok ""
      else .fail 1 "fatal: unknown revision",
    enabled := true }

/-! ## Theorems -/

example : incrementVersion "1.2.3" = "1.2.4" := by decide
example : incrementVersion "5" = "6" := by decide
example : incrementVersion "" = "1.0.0" := by decide
example : incrementVersion "abc" = "abc.1" := by decide
example : incrementVersion "1.2.x" = "1.2.x.1" := by decide
example : parseBooleanExpression "a AND b" =
    .ok (.and [.tag "a", .tag "b"]) := by rfl
example : parseBooleanExpression "NOT x" = .ok (.not (.tag "x")) := by rfl

/-- **C2, counterexample.**  The claim says every non-three-part version
string comes back with `".1"` appended, but the bumper treats a bare integer
as a simple counter: `"7"` is not three-part, yet it bumps to `"8"`, not
`"7.1"`. -/
theorem incrementVersion_claim_false :
    (goSplit "7" ".").length ≠ 3 ∧ incrementVersion "7" ≠ "7" ++ ".1" := by
  decide

/-- **C2, amended.**  The version bumper never fails and behaves as follows.
For a version string that is not three `"."`-separated parts: the empty
string becomes `"1.0.0"`; a string `strconv.Atoi` accepts becomes that
integer plus one under Go's two's-complement 64-bit wrap (so
`math.MaxInt64` wraps to `math.MinInt64`); anything else gets `".1"`
appended.  For a three-part version whose third part parses as an integer,
that part is incremented with the same wrap; for a three-part version with
a non-integer third part, `".1"` is appended to the whole string. -/
theorem incrementVersion_amended (v : String) :
    (v = "" → incrementVersion v = "1.0.0") ∧
    (¬ v = "" → ¬ (goSplit v ".").length = 3 →
      (∀ n : Int, atoi v = some n →
        incrementVersion v = toString (wrap64 (n + 1))) ∧
      (atoi v = none → incrementVersion v = v ++ ".1")) ∧
    (∀ a b c : String, goSplit v "." = [a, b, c] →
      (∀ n : Int, atoi c = some n →
        incrementVersion v = a ++ "." ++ b ++ "." ++ toString (wrap64 (n + 1))) ∧
      (atoi c = none → incrementVersion v = v ++ ".1")) := by
  refine ⟨fun hv => by simp [incrementVersion, hv], ?_, ?_⟩
  · intro hv h3
    refine ⟨fun n hn => ?_, fun hn => ?_⟩
    · simp [incrementVersion, hv, h3, hn]
    · simp [incrementVersion, hv, h3, hn]
  · intro a b c habc
    have hv : ¬ v = "" := by
      intro h
      subst h
      rw [show goSplit "" "." = [""] from rfl] at habc
      simp at habc
    have h3 : (goSplit v ".").length = 3 := by rw [habc]; rfl
    refine ⟨fun n hn => ?_, fun hn => ?_⟩
    · simp [incrementVersion, hv, h3, habc, hn]
    · simp [incrementVersion, hv, h3, habc, hn]

/-- Witness for `incrementVersion_amended` at concrete inputs, including
the int64 boundary where the bump wraps to `math.MinInt64`. -/
theorem incrementVersion_amended_witness :
    incrementVersion "7" = "8" ∧
    incrementVersion "x y" = "x y" ++ ".1" ∧
    incrementVersion "1.2.9" = "1.2.10" ∧
    incrementVersion "9223372036854775807" = "-9223372036854775808" := by
  refine ⟨?_, ?_, ?_, ?_⟩
  · exact (((incrementVersion_amended "7").2.1 (by decide) (by decide)).1 7
      (by decide)).trans (by decide)
  · exact ((incrementVersion_amended "x y").2.1 (by decide) (by decide)).2
      (by decide)
  · exact (((incrementVersion_amended "1.2.9").2.2 "1" "2" "9" (by decide)).1 9
      (by decide)).trans (by decide)
  · exact (((incrementVersion_amended "9223372036854775807").2.1 (by decide)
      (by decide)).1 9223372036854775807 (by decide)).trans (by decide)

/-- **C8.**  For the empty query, fuzzy search returns exactly the active
prompt list in enumeration order — the whole operation, state change
included, coincides with `ListPrompts`, for every possible behavior of the
external fuzzy matcher. -/
theorem searchPrompts_empty_query (fz : String → List String → List Nat)
    (s : Service) : s.searchPrompts fz "" = s.listPrompts := rfl

/-- **C9.**  The state and result of `UpdatePrompt` do not depend on the
incoming prompt's version field: two calls whose arguments differ only there
are indistinguishable (the version written to the live copy is the bump of
the stored version). -/
theorem updatePrompt_ignores_incoming_version (s : Service) (now : Nat)
    (p : Prompt) (v₁ v₂ : String) :
    s.updatePrompt now { p with version := v₁ } =
      s.updatePrompt now { p with version := v₂ } := by
  cases p
  rfl

/-- **C5.**  After every successful mutation — create, update, or delete —
the cache equals a fresh enumeration of the store. -/
theorem mutation_refreshes_cache (s : Service) (now : Nat) (p : Prompt)
    (id : String) :
    ((s.createPrompt now p).prompts = storeList (s.createPrompt now p).store) ∧
    (∀ r : Service, s.updatePrompt now p = (r, some ()) →
      r.prompts = storeList r.store) ∧
    (∀ r : Service, s.deletePrompt id = (r, some ()) →
      r.prompts = storeList r.store) := by
  refine ⟨rfl, ?_, ?_⟩
  · intro r h
    unfold Service.updatePrompt at h
    rcases hg : s.getPrompt p.id with ⟨s', opt⟩
    rw [hg] at h
    cases opt with
    | none => simp at h
    | some ex =>
      simp only [Prod.mk.injEq] at h
      obtain ⟨h1, -⟩ := h
      subst h1
      rfl
  · intro r h
    unfold Service.deletePrompt at h
    rcases hg : s.getPrompt id with ⟨s', opt⟩
    rw [hg] at h
    cases opt with
    | none => simp at h
    | some ex =>
      dsimp only at h
      rcases hd : storeDelete s'.store ex with - | st
      · rw [hd] at h; simp at h
      · rw [hd] at h
        simp only [Prod.mk.injEq] at h
        obtain ⟨h1, -⟩ := h
        subst h1
        rfl

/-- Witness for `mutation_refreshes_cache` on the sample library. -/
theorem mutation_refreshes_cache_witness :
    ((sampleService.createPrompt 3 sampleEdit).prompts =
      storeList (sampleService.createPrompt 3 sampleEdit).store) ∧
    ((sampleService.updatePrompt 3 sampleEdit).1.prompts =
      storeList (sampleService.updatePrompt 3 sampleEdit).1.store) ∧
    ((sampleService.deletePrompt "a").1.prompts =
      storeList (sampleService.deletePrompt "a").1.store) := by
  have h := mutation_refreshes_cache sampleService 3 sampleEdit "a"
  exact ⟨h.1, h.2.1 _ (by decide), h.2.2 _ (by decide)⟩

/-- **C4.**  Relative to the cache state both listings read, the active and
archived listings partition the enumerated prompt set, and membership on each
side is decided exactly by whether the tag list contains the literal
`"archive"`: the two filters are characterized pointwise, no prompt is in
both, and their concatenation is a permutation of the full enumeration. -/
theorem active_archived_partition (s : Service) :
    (∀ p, p ∈ (s.listPrompts).2 ↔
      p ∈ (s.ensureLoaded).prompts ∧
        (p.tags.any fun tag => tag == "archive") = false) ∧
    (∀ p, p ∈ (s.listArchivedPrompts).2 ↔
      p ∈ (s.ensureLoaded).prompts ∧
        (p.tags.any fun tag => tag == "archive") = true) ∧
    (∀ p, ¬ (p ∈ (s.listPrompts).2 ∧ p ∈ (s.listArchivedPrompts).2)) ∧
    ((s.listPrompts).2 ++ (s.listArchivedPrompts).2).Perm
      (s.ensureLoaded).prompts := by
  refine ⟨?_, ?_, ?_, ?_⟩
  · intro p
    show p ∈ (s.ensureLoaded).prompts.filter (fun q => ! isArchived q) ↔ _
    rw [List.mem_filter]
    simp [isArchived]
  · intro p
    show p ∈ (s.ensureLoaded).prompts.filter (fun q => isArchived q) ↔ _
    rw [List.mem_filter]
    simp [isArchived]
  · intro p hp
    obtain ⟨h1, h2⟩ := hp
    have h1' := (List.mem_filter.mp h1).2
    have h2' := (List.mem_filter.mp h2).2
    rw [h2'] at h1'
    simp at h1'
  · have h := List.filter_append_perm (fun q => isArchived q) (s.ensureLoaded).prompts
    exact (List.perm_append_comm.trans h)

/-- Witness for `active_archived_partition` (the theorem's conjuncts contain
implications): on the sample library holding one live and one archived
prompt, the listings split as expected. -/
theorem active_archived_partition_witness :
    samplePrompt ∈ (mixedService.listPrompts).2 ∧
    archivedSample ∈ (mixedService.listArchivedPrompts).2 := by
  have h := active_archived_partition mixedService
  exact ⟨(h.1 samplePrompt).mpr (by decide),
         (h.2.1 archivedSample).mpr (by decide)⟩

/-- **C10.**  `GetPrompt` never returns an archived prompt; when every
enumerated copy of an identifier is archived, the lookup fails, and so do
update and delete for that identifier. -/
theorem getPrompt_skips_archived (s : Service) (id : String) :
    (∀ p, (s.getPrompt id).2 = some p → isArchived p = false) ∧
    ((∀ p, p ∈ (s.ensureLoaded).prompts → p.id = id → isArchived p = true) →
      (s.getPrompt id).2 = none ∧
      (∀ now q, q.id = id → (s.updatePrompt now q).2 = none) ∧
      (s.deletePrompt id).2 = none) := by
  constructor
  · intro p hp
    have hp' : ((s.ensureLoaded).prompts.filter fun q => ! isArchived q).find?
        (fun q => q.id == id) = some p := hp
    have hmem := List.mem_of_find?_eq_some hp'
    have h2 := (List.mem_filter.mp hmem).2
    simpa using h2
  · intro hall
    have hnone : ((s.ensureLoaded).prompts.filter fun q => ! isArchived q).find?
        (fun q => q.id == id) = none := by
      rw [List.find?_eq_none]
      intro x hx hbeq
      have hxm := List.mem_filter.mp hx
      have hxid : x.id = id := by simpa using hbeq
      have harch := hall x hxm.1 hxid
      have := hxm.2
      rw [harch] at this
      simp at this
    refine ⟨hnone, ?_, ?_⟩
    · intro now q hq
      have hgp : s.getPrompt q.id = (s.ensureLoaded, none) := by
        show (s.ensureLoaded, ((s.ensureLoaded).prompts.filter
          fun p => ! isArchived p).find? fun p => p.id == q.id) = _
        rw [hq, hnone]
      unfold Service.updatePrompt
      rw [hgp]
    · have hgp : s.getPrompt id = (s.ensureLoaded, none) := by
        show (s.ensureLoaded, ((s.ensureLoaded).prompts.filter
          fun p => ! isArchived p).find? fun p => p.id == id) = _
        rw [hnone]
      unfold Service.deletePrompt
      rw [hgp]

/-- Witness for `getPrompt_skips_archived` on a library whose only copy of
`"a"` is archived. -/
theorem getPrompt_skips_archived_witness :
    (archivedOnlyService.getPrompt "a").2 = none ∧
    (archivedOnlyService.updatePrompt 1 archivedSample).2 = none ∧
    (archivedOnlyService.deletePrompt "a").2 = none := by
  have h := (getPrompt_skips_archived archivedOnlyService "a").2 (by decide)
  exact ⟨h.1, h.2.1 1 archivedSample (by decide), h.2.2⟩

/-! ### Store lemmas for the archive-on-update theorem -/

theorem find?_map_overwrite (l : List Prompt) (p : Prompt)
    (h : (l.any fun q => q.filePath == p.filePath) = true) :
    (l.map fun q => if q.filePath == p.filePath then p else q).find?
      (fun q => q.filePath == p.filePath) = some p := by
  induction l with
  | nil => simp at h
  | cons a l ih =>
    simp only [List.any_cons, Bool.or_eq_true] at h
    simp only [List.map_cons]
    cases hb : a.filePath == p.filePath with
    | true =>
      rw [if_pos rfl, List.find?_cons]
      rw [show (p.filePath == p.filePath) = true by simp]
    | false =>
      have h' : (l.any fun q => q.filePath == p.filePath) = true := by
        rcases h with h | h
        · rw [hb] at h; cases h
        · exact h
      rw [if_neg Bool.false_ne_true, List.find?_cons]
      rw [hb]
      exact ih h'

theorem find?_map_keep (l : List Prompt) (p : Prompt) (path : String)
    (hne : ¬ path = p.filePath) :
    (l.map fun q => if q.filePath == p.filePath then p else q).find?
      (fun q => q.filePath == path) =
    l.find? (fun q => q.filePath == path) := by
  induction l with
  | nil => rfl
  | cons a l ih =>
    simp only [List.map_cons]
    cases hb : a.filePath == p.filePath with
    | true =>
      have haeq : a.filePath = p.filePath := by simpa using hb
      have h1 : (p.filePath == path) = false := by
        simp only [beq_eq_false_iff_ne, ne_eq]
        exact fun hh => hne hh.symm
      have h2 : (a.filePath == path) = false := by rw [haeq]; exact h1
      rw [if_pos rfl, List.find?_cons, List.find?_cons]
      rw [h1, h2]
      exact ih
    | false =>
      rw [if_neg Bool.false_ne_true, List.find?_cons, List.find?_cons]
      cases hc : a.filePath == path with
      | true => rfl
      | false => exact ih

theorem lookup_none_any_false (st : Store) (path : String)
    (h : storeLookup st path = none) :
    ((st : List Prompt).any fun r => r.filePath == path) = false := by
  unfold storeLookup at h
  rw [List.find?_eq_none] at h
  cases hany : (st : List Prompt).any fun r => r.filePath == path with
  | false => rfl
  | true =>
    obtain ⟨x, hx, hpx⟩ := List.any_eq_true.mp hany
    exact absurd hpx (h x hx)

theorem storeSave_lookup_self (st : Store) (p : Prompt) :
    storeLookup (storeSave st p) p.filePath = some p := by
  unfold storeSave storeLookup
  by_cases h : ((st : List Prompt).any fun q => q.filePath == p.filePath) = true
  · rw [if_pos h]
    exact find?_map_overwrite st p h
  · rw [if_neg h]
    rw [List.find?_append]
    have hm : (st : List Prompt).find? (fun q => q.filePath == p.filePath) = none :=
      List.find?_eq_none.mpr fun x hx hpred =>
        h (List.any_eq_true.mpr ⟨x, hx, hpred⟩)
    rw [hm]
    simp [List.find?]

theorem storeSave_lookup_other (st : Store) (p : Prompt) (path : String)
    (hne : ¬ path = p.filePath) :
    storeLookup (storeSave st p) path = storeLookup st path := by
  unfold storeSave storeLookup
  by_cases h : ((st : List Prompt).any fun q => q.filePath == p.filePath) = true
  · rw [if_pos h]
    exact find?_map_keep st p path hne
  · rw [if_neg h]
    rw [List.find?_append]
    have hp : ([p].find? fun q => q.filePath == path) = none := by
      simp only [List.find?]
      have : (p.filePath == path) = false := by
        simp only [beq_eq_false_iff_ne, ne_eq]
        exact fun hh => hne hh.symm
      rw [this]
    rw [hp, Option.or_none]

theorem storeSave_length_fresh (st : Store) (p : Prompt)
    (h : ((st : List Prompt).any fun q => q.filePath == p.filePath) = false) :
    (storeSave st p).length = (st : List Prompt).length + 1 := by
  unfold storeSave
  rw [if_neg (by simp [h])]
  simp

theorem storeSave_length_overwrite (st : Store) (p : Prompt)
    (h : ((st : List Prompt).any fun q => q.filePath == p.filePath) = true) :
    (storeSave st p).length = (st : List Prompt).length := by
  unfold storeSave
  rw [if_pos h]
  simp

theorem archiveCopy_has_tag (p : Prompt) :
    ((archiveCopy p).tags.any fun tag => tag == "archive") = true := by
  unfold archiveCopy
  dsimp only
  by_cases h : (p.tags.any fun tag => tag == "archive") = true
  · rw [if_pos h]
    exact h
  · rw [if_neg h]
    simp

theorem ensureLoaded_sync (s : Service) (h : s.prompts = s.store) :
    s.ensureLoaded = s := by
  unfold Service.ensureLoaded Service.loadPrompts
  by_cases h0 : s.prompts.length = 0
  · rw [if_pos h0]
    show ({ s with prompts := storeList s.store } : Service) = s
    rw [show storeList s.store = s.prompts from h.symm]
  · rw [if_neg h0]

/-- **C1.**  A successful update of a live prompt with identifier `id` and
stored version `v` writes exactly one new file, at
`prompts/<id>-v<v>.md`, holding a copy of the pre-update live prompt with
the `archive` tag appended (same body), rewrites the live copy at its
original path, and touches nothing else.  Hypotheses: the cache agrees with
the store (the reachable-state invariant re-established by every mutation),
the prompt is found, the caller passes the usual empty-or-original file
path, and no file already occupies the archive path. -/
theorem updatePrompt_archives_prior_version
    (s : Service) (now : Nat) (q ex : Prompt)
    (hsync : s.prompts = s.store)
    (hget : (s.getPrompt q.id).2 = some ex)
    (hpath : q.filePath = "" ∨ q.filePath = ex.filePath)
    (hfresh : storeLookup s.store
      ("prompts/" ++ ex.id ++ "-v" ++ ex.version ++ ".md") = none) :
    (s.updatePrompt now q).2 = some () ∧
    storeLookup (s.updatePrompt now q).1.store
      ("prompts/" ++ ex.id ++ "-v" ++ ex.version ++ ".md") =
        some (archiveCopy ex) ∧
    ((archiveCopy ex).tags.any fun tag => tag == "archive") = true ∧
    (archiveCopy ex).content = ex.content ∧
    storeLookup (s.updatePrompt now q).1.store ex.filePath =
      some
        { q with
          version := incrementVersion ex.version,
          createdAt := ex.createdAt,
          updatedAt := now,
          filePath := ex.filePath } ∧
    (s.updatePrompt now q).1.store.length = s.store.length + 1 ∧
    (∀ path, ¬ path = "prompts/" ++ ex.id ++ "-v" ++ ex.version ++ ".md" →
      ¬ path = ex.filePath →
      storeLookup (s.updatePrompt now q).1.store path =
        storeLookup s.store path) := by
  have hens : s.ensureLoaded = s := ensureLoaded_sync s hsync
  have hfind : ((s.ensureLoaded).prompts.filter fun p => ! isArchived p).find?
      (fun p => p.id == q.id) = some ex := hget
  rw [hens, hsync] at hfind
  have hexmem : ex ∈ s.store :=
    (List.mem_filter.mp (List.mem_of_find?_eq_some hfind)).1
  have hexne : ¬ ex.filePath =
      "prompts/" ++ ex.id ++ "-v" ++ ex.version ++ ".md" := by
    intro hh
    have hnone := List.find?_eq_none.mp hfresh ex hexmem
    exact hnone (by simpa using hh)
  have hany1 : ((s.store : List Prompt).any
      fun r => r.filePath == (archiveCopy ex).filePath) = false :=
    lookup_none_any_false _ _ hfresh
  have hgp : s.getPrompt q.id = (s, some ex) := by
    show (s.ensureLoaded, ((s.ensureLoaded).prompts.filter
      fun p => ! isArchived p).find? fun p => p.id == q.id) = (s, some ex)
    rw [hens, hsync, hfind]
  have hstore2 : storeSave s.store (archiveCopy ex) =
      (s.store : List Prompt) ++ [archiveCopy ex] := by
    unfold storeSave
    rw [if_neg (by simp [hany1])]
  have hupd : s.updatePrompt now q =
      ({ store :=
           storeSave (storeSave s.store (archiveCopy ex))
             { q with
               version := incrementVersion ex.version,
               createdAt := ex.createdAt,
               updatedAt := now,
               filePath := ex.filePath },
         prompts :=
           storeSave (storeSave s.store (archiveCopy ex))
             { q with
               version := incrementVersion ex.version,
               createdAt := ex.createdAt,
               updatedAt := now,
               filePath := ex.filePath } }, some ()) := by
    unfold Service.updatePrompt
    rw [hgp]
    dsimp only
    rcases hpath with h | h
    · rw [if_pos (show q.filePath = "" from h)]
      rfl
    · by_cases h0 : q.filePath = ""
      · rw [if_pos (show q.filePath = "" from h0)]
        rfl
      · rw [if_neg (show ¬ q.filePath = "" from h0)]
        have hrec :
            ({ q with
                 version := incrementVersion ex.version,
                 createdAt := ex.createdAt,
                 updatedAt := now } : Prompt) =
              { q with
                  version := incrementVersion ex.version,
                  createdAt := ex.createdAt,
                  updatedAt := now,
                  filePath := ex.filePath } := by
          rw [← h]
        rw [hrec]
        rfl
  have hany2 : ((storeSave s.store (archiveCopy ex) : List Prompt).any
      fun r => r.filePath ==
        ({ q with
             version := incrementVersion ex.version,
             createdAt := ex.createdAt,
             updatedAt := now,
             filePath := ex.filePath } : Prompt).filePath) = true := by
    rw [hstore2]
    refine List.any_eq_true.mpr ⟨ex, List.mem_append_left _ hexmem, ?_⟩
    simp
  refine ⟨by rw [hupd], ?_, archiveCopy_has_tag ex, rfl, ?_, ?_, ?_⟩
  · rw [hupd]
    dsimp only
    rw [storeSave_lookup_other]
    · exact storeSave_lookup_self s.store (archiveCopy ex)
    · exact fun hh => hexne hh.symm
  · rw [hupd]
    dsimp only
    exact storeSave_lookup_self _ _
  · rw [hupd]
    dsimp only
    rw [storeSave_length_overwrite _ _ hany2, hstore2]
    simp
  · intro path hp1 hp2
    rw [hupd]
    dsimp only
    rw [storeSave_lookup_other]
    rw [storeSave_lookup_other]
    · exact hp1
    · exact hp2

/-- Witness for `updatePrompt_archives_prior_version` on the sample
library. -/
theorem updatePrompt_archives_prior_version_witness :
    (sampleService.updatePrompt 7 sampleEdit).2 = some () ∧
    storeLookup (sampleService.updatePrompt 7 sampleEdit).1.store
      ("prompts/" ++ samplePrompt.id ++ "-v" ++ samplePrompt.version ++ ".md") =
        some (archiveCopy samplePrompt) ∧
    (sampleService.updatePrompt 7 sampleEdit).1.store.length =
      sampleService.store.length + 1 := by
  have h := updatePrompt_archives_prior_version sampleService 7 sampleEdit
    samplePrompt rfl (by decide) (Or.inl rfl) (by decide)
  exact ⟨h.1, h.2.1, h.2.2.2.2.2.1⟩

/-! ### Parser totality: no input ever produces a parse error -/

theorem trimChars_length_le (cs : List Char) :
    (trimChars cs).length ≤ cs.length := by
  unfold trimChars
  have h1 : (cs.dropWhile isGoSpace).length ≤ cs.length :=
    (List.dropWhile_sublist _).length_le
  have h2 : ((cs.dropWhile isGoSpace).reverse.dropWhile isGoSpace).length ≤
      (cs.dropWhile isGoSpace).reverse.length :=
    (List.dropWhile_sublist _).length_le
  simp only [List.length_reverse] at *
  omega

theorem goTrimSpace_length_le (s : String) :
    (goTrimSpace s).data.length ≤ s.data.length :=
  trimChars_length_le s.data

theorem goHasPre_length (s pre : String) (h : goHasPre s pre = true) :
    pre.data.length ≤ s.data.length := by
  unfold goHasPre at h
  exact (List.isPrefixOf_iff_prefix.mp h).length_le

theorem joinSep_cons (sep p q : List Char) (ps : List (List Char)) :
    joinSep sep (p :: q :: ps) = p ++ sep ++ joinSep sep (q :: ps) := rfl

theorem splitSepAux_ne_nil (sep : List Char) (fuel : Nat) (l acc : List Char) :
    splitSepAux sep fuel l acc ≠ [] := by
  induction fuel generalizing l acc with
  | zero => cases l <;> simp [splitSepAux]
  | succ fuel ih =>
    cases l with
    | nil => simp [splitSepAux]
    | cons c cs =>
      simp only [splitSepAux]
      by_cases h : sep.isPrefixOf (c :: cs)
      · rw [if_pos h]; simp
      · rw [if_neg h]; exact ih _ _

theorem joinSep_splitSepAux (sep : List Char) (hsep : sep ≠ []) :
    ∀ fuel l acc, l.length ≤ fuel →
      joinSep sep (splitSepAux sep fuel l acc) = acc.reverse ++ l := by
  intro fuel
  induction fuel with
  | zero =>
    intro l acc h
    have hl : l = [] := List.length_eq_zero.mp (Nat.le_zero.mp h)
    subst hl
    simp [splitSepAux, joinSep]
  | succ fuel ih =>
    intro l acc h
    cases l with
    | nil => simp [splitSepAux, joinSep]
    | cons c cs =>
      simp only [splitSepAux]
      by_cases hp : sep.isPrefixOf (c :: cs)
      · rw [if_pos hp]
        obtain ⟨r, rs, hr⟩ : ∃ r rs,
            splitSepAux sep fuel (List.drop sep.length (c :: cs)) [] = r :: rs := by
          cases hx : splitSepAux sep fuel (List.drop sep.length (c :: cs)) [] with
          | nil => exact absurd hx (splitSepAux_ne_nil sep fuel _ _)
          | cons r rs => exact ⟨r, rs, rfl⟩
        have hseplen : 1 ≤ sep.length := by
          cases sep with
          | nil => exact absurd rfl hsep
          | cons a b => simp
        have hdrop : (List.drop sep.length (c :: cs)).length ≤ fuel := by
          rw [List.length_drop]
          simp only [List.length_cons] at h ⊢
          omega
        have hIH := ih (List.drop sep.length (c :: cs)) [] hdrop
        rw [hr] at hIH
        simp only [List.reverse_nil, List.nil_append] at hIH
        rw [hr, joinSep_cons, hIH]
        obtain ⟨t, ht⟩ := List.isPrefixOf_iff_prefix.mp hp
        rw [← ht, List.drop_left]
        simp [List.append_assoc]
      · rw [if_neg hp]
        have hIH := ih cs (c :: acc) (by simp only [List.length_cons] at h; omega)
        rw [hIH]
        simp

theorem mem_joinSep_length (sep : List Char) (parts : List (List Char))
    (p : List Char) (hp : p ∈ parts) (h2 : 2 ≤ parts.length) :
    p.length + sep.length ≤ (joinSep sep parts).length := by
  induction parts with
  | nil => cases hp
  | cons a rest ih =>
    cases rest with
    | nil => simp at h2
    | cons b rs =>
      rw [joinSep_cons]
      rcases List.mem_cons.mp hp with rfl | hp
      · simp only [List.length_append]
        omega
      · cases rs with
        | nil =>
          have hb : p = b := by simpa using hp
          subst hb
          simp only [joinSep, List.length_append]
          omega
        | cons c cs =>
          have hrec := ih hp (by simp)
          simp only [List.length_append]
          omega

theorem goSplit_part_length (s sep : String) (hsep : sep.data ≠ [])
    (h2 : 2 ≤ (goSplit s sep).length) (p : String) (hp : p ∈ goSplit s sep) :
    p.data.length + sep.data.length ≤ s.data.length := by
  unfold goSplit at h2 hp
  obtain ⟨cs, hcs, hpe⟩ := List.mem_map.mp hp
  have hj := joinSep_splitSepAux sep.data hsep s.data.length s.data []
    (Nat.le_refl _)
  simp only [List.reverse_nil, List.nil_append] at hj
  have hlen : 2 ≤ (splitSepAux sep.data s.data.length s.data []).length := by
    simpa using h2
  have hb := mem_joinSep_length sep.data _ cs hcs hlen
  rw [hj] at hb
  have hpd : p.data = cs := by rw [← hpe]
  rw [hpd]
  exact hb

theorem parseParts_ok (f : String → Except ParseFailure BooleanExpression)
    (parts : List String)
    (h : ∀ p ∈ parts, ∃ e, f (goTrimSpace p) = .ok e) :
    ∃ es, parseParts f parts = .ok es := by
  induction parts with
  | nil => exact ⟨[], rfl⟩
  | cons p ps ih =>
    obtain ⟨e, he⟩ := h p (List.mem_cons_self p ps)
    obtain ⟨es, hes⟩ := ih fun x hx => h x (List.mem_cons_of_mem _ hx)
    exact ⟨e :: es, by simp [parseParts, he, hes]⟩

theorem parseBEAux_ok : ∀ fuel s, s.data.length < fuel →
    ∃ e, parseBEAux fuel s = .ok e := by
  intro fuel
  induction fuel with
  | zero => intro s h; exact absurd h (Nat.not_lt_zero _)
  | succ fuel ih =>
    intro s hs
    have htrim : (goTrimSpace s).data.length ≤ s.data.length :=
      goTrimSpace_length_le s
    simp only [parseBEAux]
    by_cases h1 : goHasPre (goToUpper (goTrimSpace s)) "NOT " = true
    · rw [if_pos h1]
      have hup : (goToUpper (goTrimSpace s)).data.length =
          (goTrimSpace s).data.length := by
        simp [goToUpper]
      have hlen : 4 ≤ (goTrimSpace s).data.length := by
        have h4 := goHasPre_length _ _ h1
        rw [hup] at h4
        simpa using h4
      have harg : (goTrimSpace ⟨(goTrimSpace s).data.drop 4⟩).data.length < fuel := by
        have hd := goTrimSpace_length_le ⟨(goTrimSpace s).data.drop 4⟩
        simp only [List.length_drop] at hd
        omega
      obtain ⟨e, he⟩ := ih _ harg
      rw [he]
      exact ⟨.not e, rfl⟩
    · rw [if_neg h1]
      by_cases h2 : (goSplit (goTrimSpace s) " OR ").length > 1
      · rw [if_pos h2]
        have hall : ∀ p ∈ goSplit (goTrimSpace s) " OR ",
            ∃ e, parseBEAux fuel (goTrimSpace p) = .ok e := by
          intro p hp
          apply ih
          have hb := goSplit_part_length (goTrimSpace s) " OR " (by decide)
            (by omega) p hp
          have htp := goTrimSpace_length_le p
          have h4 : (" OR " : String).data.length = 4 := by decide
          omega
        obtain ⟨es, hes⟩ := parseParts_ok _ _ hall
        rw [hes]
        exact ⟨.or es, rfl⟩
      · rw [if_neg h2]
        by_cases h3 : (goSplit (goTrimSpace s) " AND ").length > 1
        · rw [if_pos h3]
          have hall : ∀ p ∈ goSplit (goTrimSpace s) " AND ",
              ∃ e, parseBEAux fuel (goTrimSpace p) = .ok e := by
            intro p hp
            apply ih
            have hb := goSplit_part_length (goTrimSpace s) " AND " (by decide)
              (by omega) p hp
            have htp := goTrimSpace_length_le p
            have h5 : (" AND " : String).data.length = 5 := by decide
            omega
          obtain ⟨es, hes⟩ := parseParts_ok _ _ hall
          rw [hes]
          exact ⟨.and es, rfl⟩
        · rw [if_neg h3]
          by_cases h4 : (goHasPre (goTrimSpace s) "(" &&
              goHasSuf (goTrimSpace s) ")") = true
          · rw [if_pos h4]
            apply ih
            obtain ⟨h4a, h4b⟩ := (Bool.and_eq_true _ _).mp h4
            have hlen1 : 1 ≤ (goTrimSpace s).data.length := by
              have := goHasPre_length _ _ h4a
              simpa using this
            have hlen2 : 2 ≤ (goTrimSpace s).data.length := by
              by_contra hcon
              have hl1 : (goTrimSpace s).data.length = 1 := by omega
              obtain ⟨c, hc⟩ := List.length_eq_one.mp hl1
              have hpre := List.isPrefixOf_iff_prefix.mp h4a
              have hsuf := List.isSuffixOf_iff_suffix.mp h4b
              unfold goHasSuf at hsuf
              rw [hc] at hpre hsuf
              obtain ⟨t, ht⟩ := hpre
              have hc1 : c = '(' := by
                cases t with
                | nil => simpa using ht.symm
                | cons a b => simp at ht
              obtain ⟨u, hu⟩ := hsuf
              have hc2 : c = ')' := by
                cases u with
                | nil => simpa using hu.symm
                | cons a b => simp at hu
              rw [hc1] at hc2
              exact absurd hc2 (by decide)
            show (String.mk (((goTrimSpace s).data.drop 1).dropLast)).data.length < fuel
            simp only [List.length_dropLast, List.length_drop]
            omega
          · rw [if_neg h4]
            exact ⟨.tag (goTrimSpace s), rfl⟩

/-- **C3, counterexample.**  The claim says any input that is not a valid
expression raises a typed parse error, and that no input is silently accepted
as something other than a valid expression.  But the parser accepts `"((("` —
not a tag token of the grammar (it consists of parentheses) — as the tag leaf
`Tag("(((")` with no error. -/
theorem parseBooleanExpression_claim_false :
    parseBooleanExpression "(((" = .ok (.tag "(((") ∧
    specTagToken "(((" = false :=
  ⟨rfl, rfl⟩

/-- **C3, amended.**  The parser is total in the opposite sense to the
claim: it never fails on any input — there is no typed parse error (and in
particular no reported offset); token sequences that are not valid
expressions are still accepted, bottoming out as tag leaves. -/
theorem parseBooleanExpression_never_fails (s : String) :
    ∃ e, parseBooleanExpression s = .ok e :=
  parseBEAux_ok (s.data.length + 1) s (Nat.lt_succ_self _)

/-! ### Pull reconciliation: strategy order -/

theorem runGitCommand_eq (w : GitWorld) (t : Nat) (args : List String) :
    runGitCommand w t args = ⟨t + 1, [args], gitErr args (w.run t args)⟩ := by
  unfold runGitCommand gitErr
  cases w.run t args <;> rfl

theorem cmdOutput_eq (w : GitWorld) (t : Nat) (args : List String) :
    cmdOutput w t args = ⟨t + 1, [args], outRes (w.run t args)⟩ := by
  unfold cmdOutput outRes
  cases w.run t args <;> rfl

/-- **C6.**  On a divergent-branches pull failure the three strategies run in
the fixed order merge-preferring-local, rebase, hard reset: the issued
command trace is exactly the merge attempt when it succeeds; merge then
rebase when only the merge fails; and merge, rebase, then the reset sequence
(fetch followed by `reset --hard`, the reset reached only when the fetch
succeeds) when both fail.  In particular a `reset` command appears in the
trace only if both the merge and the rebase attempts failed. -/
theorem handlePullConflict_strategy_order (w : GitWorld) (t : Nat) (e : String)
    (hdiv : goContains e "divergent" = true) :
    ((handlePullConflict w t e).trace =
      if (w.run (t + 1) (mergeCmd (branchOf (w.run t branchCmd)))).isOk then
        [branchCmd, mergeCmd (branchOf (w.run t branchCmd))]
      else if (w.run (t + 3) (rebaseCmd (branchOf (w.run (t + 2) branchCmd)))).isOk then
        [branchCmd, mergeCmd (branchOf (w.run t branchCmd)),
         branchCmd, rebaseCmd (branchOf (w.run (t + 2) branchCmd))]
      else
        [branchCmd, mergeCmd (branchOf (w.run t branchCmd)),
         branchCmd, rebaseCmd (branchOf (w.run (t + 2) branchCmd)),
         branchCmd, fetchCmd] ++
        (if (w.run (t + 5) fetchCmd).isOk then
          [["reset", "--hard", "origin/" ++ branchOf (w.run (t + 4) branchCmd)]]
         else [])) ∧
    (∀ args ∈ (handlePullConflict w t e).trace, args.head? = some "reset" →
      (w.run (t + 1) (mergeCmd (branchOf (w.run t branchCmd)))).isOk = false ∧
      (w.run (t + 3) (rebaseCmd (branchOf (w.run (t + 2) branchCmd)))).isOk = false) := by
  have hcond : (goContains e "divergent" ||
      goContains e "hint: You have divergent branches") = true := by
    rw [hdiv]; rfl
  have htr : (handlePullConflict w t e).trace =
      if (w.run (t + 1) (mergeCmd (branchOf (w.run t branchCmd)))).isOk then
        [branchCmd, mergeCmd (branchOf (w.run t branchCmd))]
      else if (w.run (t + 3) (rebaseCmd (branchOf (w.run (t + 2) branchCmd)))).isOk then
        [branchCmd, mergeCmd (branchOf (w.run t branchCmd)),
         branchCmd, rebaseCmd (branchOf (w.run (t + 2) branchCmd))]
      else
        [branchCmd, mergeCmd (branchOf (w.run t branchCmd)),
         branchCmd, rebaseCmd (branchOf (w.run (t + 2) branchCmd)),
         branchCmd, fetchCmd] ++
        (if (w.run (t + 5) fetchCmd).isOk then
          [["reset", "--hard", "origin/" ++ branchOf (w.run (t + 4) branchCmd)]]
         else []) := by
    unfold handlePullConflict resetToRemote
    rw [if_pos hcond]
    simp only [getCurrentBranch, runGitCommand_eq]
    rcases hm : w.run (t + 1) (mergeCmd (branchOf (w.run t branchCmd)))
        with o1 | ⟨c1, o1⟩ | _ <;>
      rcases hr : w.run (t + 3) (rebaseCmd (branchOf (w.run (t + 2) branchCmd)))
          with o2 | ⟨c2, o2⟩ | _ <;>
        rcases hf : w.run (t + 5) fetchCmd with o3 | ⟨c3, o3⟩ | _ <;>
          rcases hrst : w.run (t + 6)
              ["reset", "--hard", "origin/" ++ branchOf (w.run (t + 4) branchCmd)]
              with o4 | ⟨c4, o4⟩ | _ <;>
            rfl
  refine ⟨htr, ?_⟩
  intro args hmem hhead
  by_cases hb1 : (w.run (t + 1) (mergeCmd (branchOf (w.run t branchCmd)))).isOk = true
  · rw [htr, if_pos hb1] at hmem
    rcases List.mem_cons.mp hmem with rfl | hmem
    · exact absurd hhead (by decide)
    · rcases List.mem_cons.mp hmem with rfl | hmem
      · simp [mergeCmd] at hhead
      · cases hmem
  · by_cases hb2 : (w.run (t + 3)
        (rebaseCmd (branchOf (w.run (t + 2) branchCmd)))).isOk = true
    · rw [htr, if_neg hb1, if_pos hb2] at hmem
      rcases List.mem_cons.mp hmem with rfl | hmem
      · exact absurd hhead (by decide)
      · rcases List.mem_cons.mp hmem with rfl | hmem
        · simp [mergeCmd] at hhead
        · rcases List.mem_cons.mp hmem with rfl | hmem
          · exact absurd hhead (by decide)
          · rcases List.mem_cons.mp hmem with rfl | hmem
            · simp [rebaseCmd] at hhead
            · cases hmem
    · exact ⟨Bool.eq_false_iff.mpr hb1, Bool.eq_false_iff.mpr hb2⟩

/-- Witness for `handlePullConflict_strategy_order`: on the all-failing
oracle, the trace is merge attempt, rebase attempt, then the fetch of the
reset sequence (the fetch itself fails, so the reset command is never
reached). -/
theorem handlePullConflict_strategy_order_witness :
    (handlePullConflict failWorld 0 "divergent").trace =
      [branchCmd, mergeCmd "main", branchCmd, rebaseCmd "main",
       branchCmd, fetchCmd] := by
  have h := (handlePullConflict_strategy_order failWorld 0 "divergent"
    (by decide)).1
  exact h.trans (by decide)

/-! ### Push retry: at most one retry, and the distinct terminal error -/

theorem countPush_append (a b : List (List String)) :
    countPush (a ++ b) = countPush a + countPush b := by
  simp [countPush, List.filter_append]

theorem countPush_nil : countPush [] = 0 := rfl

theorem countPush_cons (args : List String) (tr : List (List String)) :
    countPush (args :: tr) =
      (if (args.head? == some "push") = true then 1 else 0) + countPush tr := by
  unfold countPush
  rw [List.filter_cons]
  split
  · simp only [List.length_cons, if_pos]
    omega
  · simp

theorem countPush_isBehindRemote (w : GitWorld) (t : Nat) :
    countPush (isBehindRemote w t).trace = 0 := by
  unfold isBehindRemote
  simp only [getCurrentBranch, cmdOutput_eq]
  rcases h1 : w.run (t + 1) ["rev-parse", "origin/" ++ branchOf (w.run t branchCmd)]
      with o1 | ⟨c1, o1⟩ | _ <;>
    rcases h2 : w.run (t + 2) ["rev-parse", "HEAD"] with o2 | ⟨c2, o2⟩ | _ <;>
      (repeat' split) <;> rfl

theorem countPush_resetToRemote (w : GitWorld) (t : Nat) :
    countPush (resetToRemote w t).trace = 0 := by
  unfold resetToRemote
  simp only [getCurrentBranch, runGitCommand_eq]
  rcases hf : w.run (t + 1) fetchCmd with o1 | ⟨c1, o1⟩ | _ <;>
    rcases hr : w.run (t + 2) ["reset", "--hard", "origin/" ++ branchOf (w.run t branchCmd)]
        with o2 | ⟨c2, o2⟩ | _ <;>
      rfl

theorem countPush_resolveLoop (w : GitWorld) (files : List String) :
    ∀ t, countPush (resolveLoop w t files).trace = 0 := by
  induction files with
  | nil => intro t; rfl
  | cons file rest ih =>
    intro t
    simp only [resolveLoop, runGitCommand_eq]
    by_cases hfe : file = ""
    · rw [if_pos hfe]
      exact ih t
    · rw [if_neg hfe]
      rcases hco : w.run t ["checkout", "--theirs", file] with o1 | ⟨c1, o1⟩ | _ <;>
        rcases had : w.run (t + 1) ["add", file] with o2 | ⟨c2, o2⟩ | _ <;>
          simp [countPush_append, countPush_cons, countPush_nil, ih, gitErr]

theorem countPush_resolveConflicts (w : GitWorld) (t : Nat) :
    countPush (resolveConflictsAutomatically w t).trace = 0 := by
  unfold resolveConflictsAutomatically
  simp only [cmdOutput_eq, runGitCommand_eq]
  rcases hd : w.run t ["diff", "--name-only", "--diff-filter=U"]
      with o | ⟨c, o⟩ | _
  · simp only [outRes]
    split
    · rfl
    · rcases hrl : (resolveLoop w (t + 1) (goSplit (goTrimSpace o) "\n")).result
          with - | e
      · rcases hcm : w.run (resolveLoop w (t + 1) (goSplit (goTrimSpace o) "\n")).tick
            ["commit", "--no-edit"] with o2 | ⟨c2, o2⟩ | _ <;>
          simp [countPush_append, countPush_cons, countPush_nil, countPush_resolveLoop, gitErr]
      · simp [countPush_append, countPush_cons, countPush_nil, countPush_resolveLoop]
  · rfl
  · rfl

theorem countPush_handlePullConflict (w : GitWorld) (t : Nat) (e : String) :
    countPush (handlePullConflict w t e).trace = 0 := by
  unfold handlePullConflict
  split
  · simp only [getCurrentBranch, runGitCommand_eq]
    rcases hm : w.run (t + 1) (mergeCmd (branchOf (w.run t branchCmd)))
        with o1 | ⟨c1, o1⟩ | _ <;>
      rcases hr : w.run (t + 3) (rebaseCmd (branchOf (w.run (t + 2) branchCmd)))
          with o2 | ⟨c2, o2⟩ | _ <;>
        simp [countPush_append, countPush_cons, countPush_nil, countPush_resetToRemote, gitErr, branchCmd, mergeCmd, rebaseCmd]
  · split
    · exact countPush_resolveConflicts w t
    · rfl

theorem countPush_pullChanges (w : GitWorld) (t : Nat) :
    countPush (pullChanges w t).trace = 0 := by
  unfold pullChanges
  split
  · rfl
  · simp only [getCurrentBranch, runGitCommand_eq]
    rcases hfe : w.run t fetchCmd with o1 | ⟨c1, o1⟩ | _
    · rcases hbr : (isBehindRemote w (t + 1)).result with e | b
      · simp [countPush_append, countPush_cons, countPush_nil, countPush_isBehindRemote, gitErr, branchCmd, fetchCmd]
      · cases b
        · simp [countPush_append, countPush_cons, countPush_nil, countPush_isBehindRemote, gitErr, branchCmd, fetchCmd]
        · rcases hpl : w.run ((isBehindRemote w (t + 1)).tick + 1)
              ["pull", "origin",
               branchOf (w.run (isBehindRemote w (t + 1)).tick branchCmd)]
              with o2 | ⟨c2, o2⟩ | _ <;>
            simp [countPush_append, countPush_cons, countPush_nil,
              countPush_isBehindRemote, countPush_handlePullConflict, gitErr,
              branchCmd, fetchCmd]
    · rfl
    · rfl

/-- **C7.**  `pushWithRetry` never issues more than two pushes; and when the
first push fails with a rejection/non-fast-forward error and the subsequent
pull succeeds, it pushes exactly twice (one retry): if the retried push
succeeds the operation returns success, and if it fails the operation
returns the distinct `push failed after pull` terminal error (with no
further retries). -/
theorem pushWithRetry_retries_once (w : GitWorld) (t : Nat) :
    countPush (pushWithRetry w t).trace ≤ 2 ∧
    (∀ msg, runGitCommand w (t + 1) (pushCmd (branchOf (w.run t branchCmd))) =
        ⟨t + 2, [pushCmd (branchOf (w.run t branchCmd))], some msg⟩ →
      (goContains msg "rejected" || goContains msg "non-fast-forward") = true →
      (pullChanges w (t + 2)).result = none →
      countPush (pushWithRetry w t).trace = 2 ∧
      ((w.run ((pullChanges w (t + 2)).tick + 1)
          (pushCmd (branchOf (w.run (pullChanges w (t + 2)).tick branchCmd)))).isOk =
            true →
        (pushWithRetry w t).result = none) ∧
      (∀ rmsg, runGitCommand w ((pullChanges w (t + 2)).tick + 1)
          (pushCmd (branchOf (w.run (pullChanges w (t + 2)).tick branchCmd))) =
          ⟨(pullChanges w (t + 2)).tick + 2,
           [pushCmd (branchOf (w.run (pullChanges w (t + 2)).tick branchCmd))],
           some rmsg⟩ →
        (pushWithRetry w t).result =
          some ("push failed after pull: original=" ++ msg ++
            ", retry=" ++ rmsg))) := by
  constructor
  · unfold pushWithRetry
    simp only [getCurrentBranch, runGitCommand_eq]
    rcases hp1 : w.run (t + 1) (pushCmd (branchOf (w.run t branchCmd)))
        with o1 | ⟨c1, o1⟩ | _ <;>
      simp only [gitErr] <;>
      (repeat' split) <;>
        simp [countPush_append, countPush_cons, countPush_nil,
          countPush_pullChanges, branchCmd, pushCmd]
  · intro msg hmsg hrej hpl
    refine ⟨?_, ?_, ?_⟩
    · unfold pushWithRetry
      simp only [getCurrentBranch]
      rw [hmsg]
      simp [hrej, hpl, runGitCommand_eq, gitErr, countPush_append, countPush_cons,
        countPush_nil, countPush_pullChanges]
      all_goals
        (repeat' split) <;>
          simp [countPush_append, countPush_cons, countPush_nil,
            countPush_pullChanges, branchCmd, pushCmd]
    · intro hok
      unfold pushWithRetry
      simp only [getCurrentBranch]
      rw [hmsg]
      rcases hp2 : w.run ((pullChanges w (t + 2)).tick + 1)
          (pushCmd (branchOf (w.run (pullChanges w (t + 2)).tick branchCmd)))
          with o2 | ⟨c2, o2⟩ | _
      · simp [hrej, hpl, hp2, runGitCommand_eq, gitErr]
      · rw [hp2] at hok
        simp [CmdResult.isOk] at hok
      · rw [hp2] at hok
        simp [CmdResult.isOk] at hok
    · intro rmsg hrmsg
      unfold pushWithRetry
      simp only [getCurrentBranch]
      rw [hmsg]
      try dsimp only
      rw [hrmsg]
      simp [hrej, hpl]

/-- Witness for `pushWithRetry_retries_once` on the mock oracle of the
push-retry scenario: with a succeeding second push the operation succeeds
after exactly one retry; with a failing second push it returns the
`push failed after pull` error, again with exactly two pushes issued. -/
theorem pushWithRetry_retries_once_witness :
    (pushWithRetry (mockPushWorld true) 0).result = none ∧
    countPush (pushWithRetry (mockPushWorld true) 0).trace = 2 ∧
    (pushWithRetry (mockPushWorld false) 0).result =
      some ("push failed after pull: original=" ++
        "git push origin main failed: ! [rejected] main -> main (non-fast-forward)" ++
        ", retry=" ++
        "git push origin main failed: ! [rejected] main -> main (fetch first)") ∧
    countPush (pushWithRetry (mockPushWorld false) 0).trace = 2 := by
  have h1 := (pushWithRetry_retries_once (mockPushWorld true) 0).2
    "git push origin main failed: ! [rejected] main -> main (non-fast-forward)"
    rfl (by decide) rfl
  have h2 := (pushWithRetry_retries_once (mockPushWorld false) 0).2
    "git push origin main failed: ! [rejected] main -> main (non-fast-forward)"
    rfl (by decide) rfl
  refine ⟨h1.2.1 rfl, h1.1, ?_, h2.1⟩
  exact h2.2.2
    "git push origin main failed: ! [rejected] main -> main (fetch first)" rfl

end PocketPrompt
